import Mathlib

/-!
The cpp-events library: borrowable connection registry and connection lists.

A shallow embedding of

* `Events/BorrowableData.hpp` (`BorrowableData`, `BorrowableData::Borrower`),
* `trunk/Events/ConnectionList.cpp` (`ConnectionList`),
* the parts of `trunk/Events/AbstractConnection.hpp` these two rely on,

followed by theorems about them.

Pointers are natural numbers (addresses).  A `std::vector<AbstractConnection*>`
is a `List` of addresses.  Operations that contain an `assert` take the build mode
`ndebug` (is the program compiled with `NDEBUG`?) and return `Except String _`: with
`NDEBUG` an `assert` does nothing, without it a failed `assert` aborts the program and
the error names the failed assertion.
-/

namespace CppEvents

/-! ## Data model -/

/-- Address of an `AbstractConnection` object (`AbstractConnection *`). -/
abbrev ConnPtr := Nat

/-- The vector type `typedef std::vector<AbstractConnection*> ConnectionsVector;`. -/
abbrev ConnectionsVector := List ConnPtr

/-- Address of the `data_` member of a live `BorrowableData::Borrower`
(`ConnectionsVector *`). -/
abbrev BufPtr := Nat

/-- The members of `class BorrowableData`: `data_` and the pointer `borrowed_`
(`none` is the null pointer). -/
structure BorrowableData where
  data_ : ConnectionsVector
  borrowed_ : Option BufPtr

/-- The memory a registry lives in: the registry itself and, for every address, the
contents of the `Borrower::data_` buffer stored there.  Every `Borrower` has this
registry as its `src_`. -/
structure Store where
  src : BorrowableData
  buf : BufPtr → ConnectionsVector

/-- Overwrite the buffer at address `p`. -/
def Store.setBuf (s : Store) (p : BufPtr) (v : ConnectionsVector) : BufPtr → ConnectionsVector :=
  fun q => if q = p then v else s.buf q

/-- The constructor `BorrowableData()`: empty `data_`, null `borrowed_`. -/
def BorrowableData.new : BorrowableData :=
  { data_ := [], borrowed_ := none }

/-- The test `bool isBorrowed() const { return borrowed_ != 0; }`. -/
def isBorrowed (s : Store) : Bool :=
  s.src.borrowed_.isSome

/-- The truth value of a string literal used as a condition: a string literal is a
non-null pointer, so it converts to `true`. -/
def stringLiteral : Bool :=
  true

/-- The `assert(e)` of `<cassert>`.  In a program compiled with `NDEBUG` it does nothing;
otherwise the program aborts when `e` is false, and `msg` names the failed assertion. -/
def assert (ndebug : Bool) (e : Bool) (msg : String) : Except String Unit :=
  if ndebug then Except.ok ()
  else if e then Except.ok ()
  else Except.error msg

/-- The reader `constRef()`: the borrowed buffer when borrowed (after
`assert(data_.empty())`), else `data_`. -/
def constRef (ndebug : Bool) (s : Store) : Except String ConnectionsVector :=
  match s.src.borrowed_ with
  | some p =>
    match assert ndebug s.src.data_.isEmpty "data_.empty()" with
    | Except.ok _ => Except.ok (s.buf p)
    | Except.error e => Except.error e
  | none => Except.ok s.src.data_

/-- The method `detach()`: when borrowed, `assert(data_.empty())`, copy the borrowed
buffer into `data_` and clear `borrowed_`. -/
def detach (ndebug : Bool) (s : Store) : Except String Store :=
  match s.src.borrowed_ with
  | some p =>
    match assert ndebug s.src.data_.isEmpty "data_.empty()" with
    | Except.ok _ => Except.ok { s with src := { data_ := s.buf p, borrowed_ := none } }
    | Except.error e => Except.error e
  | none => Except.ok s

/-- The method `mutableRef()`: `detach()`, then a reference to `data_`.  The store
returned is the one in which the returned reference lives. -/
def mutableRef (ndebug : Bool) (s : Store) : Except String Store :=
  detach ndebug s

/-- A call of `mutableRef()` whose result is then edited in place by `f`. -/
def mutableEdit (ndebug : Bool) (f : ConnectionsVector → ConnectionsVector) (s : Store) :
    Except String Store :=
  match mutableRef ndebug s with
  | Except.ok t => Except.ok { t with src := { t.src with data_ := f t.src.data_ } }
  | Except.error e => Except.error e

/-- The constructor `Borrower(BorrowableData const * src)` of a borrower whose `data_`
lives at address `p`:
`assert(!src_->borrowed_ && !"Data can be borrowed only once")`, then swap the (empty)
buffer with the registry's `data_` and point `borrowed_` at the buffer.  The second
operand of the asserted conjunction is the negation of a string literal. -/
def Borrower.new (ndebug : Bool) (p : BufPtr) (s : Store) : Except String Store :=
  match assert ndebug (!s.src.borrowed_.isSome && !stringLiteral)
      "Data can be borrowed only once" with
  | Except.ok _ =>
    Except.ok { src := { data_ := [], borrowed_ := some p }, buf := s.setBuf p s.src.data_ }
  | Except.error e => Except.error e

/-- The destructor `~Borrower()` of the borrower at `p`: if the registry still points at
this buffer, `assert(src_->data_.empty())`, swap the buffer back and clear `borrowed_`. -/
def Borrower.delete (ndebug : Bool) (p : BufPtr) (s : Store) : Except String Store :=
  if s.src.borrowed_ = some p then
    match assert ndebug s.src.data_.isEmpty "src_->data_.empty()" with
    | Except.ok _ =>
      Except.ok { src := { data_ := s.buf p, borrowed_ := none }, buf := s.setBuf p s.src.data_ }
    | Except.error e => Except.error e
  else Except.ok s

/-- The reader `Borrower::constData()` of the borrower at `p`. -/
def Borrower.constData (p : BufPtr) (s : Store) : ConnectionsVector :=
  s.buf p

/-- The vector operation `push_back`. -/
def push_back (c : ConnPtr) (v : ConnectionsVector) : ConnectionsVector :=
  v ++ [c]

/-- The loop of `ConnectionList::removeConnection` over a vector `v`: the iterator is at
index `it`, `rest` is the range from the iterator to `end()`. -/
def removeConnection.loop (conn : ConnPtr) (v : ConnectionsVector) :
    Nat → List ConnPtr → Bool × ConnectionsVector
  | _, [] => (false, v)
  | it, x :: rest =>
    if conn = x then (true, (v.set it (v.getLastD x)).dropLast)
    else removeConnection.loop conn v (it + 1) rest

/-- The body of `ConnectionList::removeConnection` on the vector `connections_`: the
first entry equal to `conn` is overwritten with `back()` and the last slot is popped. -/
def removeConnection (conn : ConnPtr) (v : ConnectionsVector) : Bool × ConnectionsVector :=
  removeConnection.loop conn v 0 v

/-- Append the connections `ys` to the registry one by one, each through
`mutableRef().push_back(c)`. -/
def appendAll (ndebug : Bool) : List ConnPtr → Store → Except String Store
  | [], s => Except.ok s
  | c :: ys, s =>
    match mutableEdit ndebug (push_back c) s with
    | Except.ok t => appendAll ndebug ys t
    | Except.error e => Except.error e

/-- An edit made to the registry through `mutableRef()`: `push_back(c)` or the
swap-with-last removal of `removeConnection(c)`. -/
inductive Edit where
  | push (c : ConnPtr)
  | remove (c : ConnPtr)
  deriving DecidableEq, Repr

/-- The effect of an edit on the vector it is applied to. -/
def Edit.apply : Edit → ConnectionsVector → ConnectionsVector
  | Edit.push c, v => push_back c v
  | Edit.remove c, v => (removeConnection c v).2

/-- The vector the edits leave when performed in order on `v`. -/
def applyEdits : List Edit → ConnectionsVector → ConnectionsVector
  | [], v => v
  | e :: es, v => applyEdits es (e.apply v)

/-- Perform the edits in order, each one on the reference a fresh `mutableRef()` call
returned. -/
def runEdits (ndebug : Bool) : List Edit → Store → Except String Store
  | [], s => Except.ok s
  | e :: es, s =>
    match mutableEdit ndebug e.apply s with
    | Except.ok t => runEdits ndebug es t
    | Except.error err => Except.error err

/-- The connections the edits remove, in order. -/
def removedBy : List Edit → List ConnPtr
  | [] => []
  | Edit.remove c :: es => c :: removedBy es
  | Edit.push _ :: es => removedBy es

/-- The connections the edits append, in order. -/
def pushedBy : List Edit → List ConnPtr
  | [] => []
  | Edit.push c :: es => c :: pushedBy es
  | Edit.remove _ :: es => pushedBy es

/-- An operation on the registry between two borrower constructions. -/
inductive RegOp where
  | constRef
  | mutableRef (edit : ConnectionsVector → ConnectionsVector)
  | detach

/-- Does the operation only read the registry (`constRef`)? -/
def RegOp.isRead : RegOp → Bool
  | RegOp.constRef => true
  | RegOp.mutableRef _ => false
  | RegOp.detach => false

/-- Run one registry operation; `mutableRef` is followed by the edit of the returned
vector. -/
def runOp (ndebug : Bool) : RegOp → Store → Except String Store
  | RegOp.constRef, s =>
    match constRef ndebug s with
    | Except.ok _ => Except.ok s
    | Except.error e => Except.error e
  | RegOp.mutableRef f, s => mutableEdit ndebug f s
  | RegOp.detach, s => detach ndebug s

/-- Run registry operations in order. -/
def runOps (ndebug : Bool) : List RegOp → Store → Except String Store
  | [], s => Except.ok s
  | op :: ops, s =>
    match runOp ndebug op s with
    | Except.ok t => runOps ndebug ops t
    | Except.error e => Except.error e

/-! ## Connections and connection lists -/

/-- The identity members of `class AbstractConnection`: `sender_`, `event_`, `reciever_`
and `targetDelegate_`, each an opaque comparable identity. -/
structure AbstractConnection where
  sender_ : Nat
  event_ : Nat
  reciever_ : Nat
  targetDelegate_ : Nat
  deriving DecidableEq, Repr

/-- The connection objects in memory, by address.  The identity members never change
after construction. -/
abbrev Heap := ConnPtr → AbstractConnection

/-- The accessor `senderObject()`. -/
def senderObject (H : Heap) (conn : ConnPtr) : Nat :=
  (H conn).sender_

/-- Modelled from the spec: the body of `senderEventRef()` is not part of the sources at
hand; the reference is the identity of the owning event point, `event_`. -/
def senderEventRef (H : Heap) (conn : ConnPtr) : Nat :=
  (H conn).event_

/-- The accessor `recieverObject()`. -/
def recieverObject (H : Heap) (conn : ConnPtr) : Nat :=
  (H conn).reciever_

/-- The accessor `recieverDelegate()`. -/
def recieverDelegate (H : Heap) (conn : ConnPtr) : Nat :=
  (H conn).targetDelegate_

/-- A disconnect listener registered on a connection: the delegate
`(this, &ConnectionList::connectionBroken)` of the list under study, or the delegate of
some other object, named by a number. -/
inductive Listener where
  | connectionBroken
  | other (id : Nat)
  deriving DecidableEq, Repr

/-- A call a foreign listener makes on the list under study. -/
inductive ListAction where
  | addConnection (c : ConnPtr)
  | removeConnection (c : ConnPtr)
  deriving DecidableEq, Repr

/-- What the foreign listeners do: listener `id`, notified that `conn` is broken while
the list holds `v`, makes these calls on the list, in order. -/
abbrev Behaviour := Nat → ConnPtr → ConnectionsVector → List ListAction

/-- No foreign listener ever calls `addConnection` on the list. -/
def NoAdds (B : Behaviour) : Prop :=
  ∀ (i : Nat) (conn : ConnPtr) (v : ConnectionsVector) (a : ConnPtr),
    ListAction.addConnection a ∉ B i conn v

/-- One `ConnectionList` together with the connections it can point to:
* `connections_` is the member of the list;
* `listeners_ c` is the member `listeners_` of the connection at `c`;
* `broken` holds the connections whose `disconnect()` has run;
* `disconnectCalls` records every call of `disconnect()`, in order;
* `brokenLog` records every `connectionBroken(conn)` the list received, with the value
  `removeConnection(conn)` returned to it. -/
structure World where
  connections_ : ConnectionsVector
  listeners_ : ConnPtr → List Listener
  broken : List ConnPtr
  disconnectCalls : List ConnPtr
  brokenLog : List (ConnPtr × Bool)

/-- Modelled from the spec: the body of `doAddDisconnectListener` is not part of the
sources at hand; it registers the delegate at the end of `listeners_`. -/
def doAddDisconnectListener (conn : ConnPtr) (l : Listener) (w : World) : World :=
  { w with listeners_ := fun c => if c = conn then w.listeners_ c ++ [l] else w.listeners_ c }

/-- The method `ConnectionList::addConnection`: register `connectionBroken` on `conn`,
`push_back` it, return it. -/
def ConnectionList.addConnection (conn : ConnPtr) (w : World) : ConnPtr × World :=
  let w1 := doAddDisconnectListener conn Listener.connectionBroken w
  (conn, { w1 with connections_ := push_back conn w1.connections_ })

/-- The method `ConnectionList::removeConnection`. -/
def ConnectionList.removeConnection (conn : ConnPtr) (w : World) : Bool × World :=
  let r := CppEvents.removeConnection conn w.connections_
  (r.1, { w with connections_ := r.2 })

/-- The method `ConnectionList::connectionBroken`: `(void)removeConnection(conn)`. -/
def ConnectionList.connectionBroken (conn : ConnPtr) (w : World) : World :=
  let r := ConnectionList.removeConnection conn w
  { r.2 with brokenLog := r.2.brokenLog ++ [(conn, r.1)] }

/-- Perform one call of a foreign listener on the list. -/
def runAction (w : World) : ListAction → World
  | ListAction.addConnection c => (ConnectionList.addConnection c w).2
  | ListAction.removeConnection c => (ConnectionList.removeConnection c w).2

/-- Deliver the notification that `conn` is broken to one listener. -/
def notify (B : Behaviour) (conn : ConnPtr) (w : World) : Listener → World
  | Listener.connectionBroken => ConnectionList.connectionBroken conn w
  | Listener.other i => (B i conn w.connections_).foldl runAction w

/-- Modelled from the spec: the body of `AbstractConnection::disconnect()` is not part of
the sources at hand.  A connection that is already disconnected is left alone; otherwise
it is marked disconnected and every listener registered on it is notified once. -/
def AbstractConnection.disconnect (B : Behaviour) (conn : ConnPtr) (w : World) : World :=
  let w1 := { w with disconnectCalls := w.disconnectCalls ++ [conn] }
  if conn ∈ w.broken then w1
  else (w.listeners_ conn).foldl (notify B conn) { w1 with broken := conn :: w.broken }

/-- The loop of `ConnectionList::disconnectAll` over `tmp`. -/
def ConnectionList.disconnectAll.loop (B : Behaviour) : List ConnPtr → World → World
  | [], w => w
  | conn :: rest, w => ConnectionList.disconnectAll.loop B rest (AbstractConnection.disconnect B conn w)

/-- The method `ConnectionList::disconnectAll`: swap `connections_` into the local `tmp`,
then disconnect every entry of `tmp`. -/
def ConnectionList.disconnectAll (B : Behaviour) (w : World) : World :=
  ConnectionList.disconnectAll.loop B w.connections_ { w with connections_ := [] }

/-- The loop of `DISCONNECT_CONNECTIONS` over `before`; the loop state is the local
`after`, the local `retVal` and the world. -/
def DISCONNECT_CONNECTIONS.loop (B : Behaviour) (Test : ConnPtr → Bool) :
    List ConnPtr → ConnectionsVector × Bool × World → ConnectionsVector × Bool × World
  | [], st => st
  | conn :: rest, (after, retVal, w) =>
    if Test conn then
      DISCONNECT_CONNECTIONS.loop B Test rest (after, true, AbstractConnection.disconnect B conn w)
    else
      DISCONNECT_CONNECTIONS.loop B Test rest (push_back conn after, retVal, w)

/-- The body `DISCONNECT_CONNECTIONS(Test)`: swap `connections_` into `before`, run the
loop, swap `after` into `connections_`, return `retVal`. -/
def DISCONNECT_CONNECTIONS (B : Behaviour) (Test : ConnPtr → Bool) (w : World) : Bool × World :=
  let st := DISCONNECT_CONNECTIONS.loop B Test w.connections_ ([], false, { w with connections_ := [] })
  (st.2.1, { st.2.2 with connections_ := st.1 })

/-- The method `ConnectionList::disconnectFromSender`. -/
def ConnectionList.disconnectFromSender (H : Heap) (B : Behaviour) (reciever : Nat) (w : World) :
    Bool × World :=
  DISCONNECT_CONNECTIONS B (fun conn => decide (senderObject H conn = reciever)) w

/-- The method `ConnectionList::disconnectFromReciver`. -/
def ConnectionList.disconnectFromReciver (H : Heap) (B : Behaviour) (reciever : Nat) (w : World) :
    Bool × World :=
  DISCONNECT_CONNECTIONS B (fun conn => decide (recieverObject H conn = reciever)) w

/-- The method `ConnectionList::disconnectFromEvent`. -/
def ConnectionList.disconnectFromEvent (H : Heap) (B : Behaviour) (ev : Nat) (w : World) :
    Bool × World :=
  DISCONNECT_CONNECTIONS B (fun conn => decide (senderEventRef H conn = ev)) w

/-- The method `ConnectionList::disconnectFromDelegate`. -/
def ConnectionList.disconnectFromDelegate (H : Heap) (B : Behaviour) (deleg : Nat) (w : World) :
    Bool × World :=
  DISCONNECT_CONNECTIONS B (fun conn => decide (recieverDelegate H conn = deleg)) w

/-- The four disconnect-by-criteria methods. -/
inductive Criterion where
  | Sender
  | Reciver
  | Event
  | Delegate
  deriving DecidableEq, Repr

/-- Does the connection at `conn` match identity `id` under the criterion? -/
def Criterion.test (k : Criterion) (H : Heap) (id : Nat) (conn : ConnPtr) : Bool :=
  match k with
  | Criterion.Sender => decide (senderObject H conn = id)
  | Criterion.Reciver => decide (recieverObject H conn = id)
  | Criterion.Event => decide (senderEventRef H conn = id)
  | Criterion.Delegate => decide (recieverDelegate H conn = id)

/-- Call the disconnect-by-criteria method the criterion names. -/
def ConnectionList.disconnectFrom (k : Criterion) (H : Heap) (B : Behaviour) (id : Nat) (w : World) :
    Bool × World :=
  match k with
  | Criterion.Sender => ConnectionList.disconnectFromSender H B id w
  | Criterion.Reciver => ConnectionList.disconnectFromReciver H B id w
  | Criterion.Event => ConnectionList.disconnectFromEvent H B id w
  | Criterion.Delegate => ConnectionList.disconnectFromDelegate H B id w

/-- The body `CHECK_FOR_CONNECTIONS(Test)` over `connections_`: return true at the first
entry that passes `Test`, false when the iteration ends. -/
def CHECK_FOR_CONNECTIONS (Test : ConnPtr → Bool) : ConnectionsVector → Bool
  | [] => false
  | it :: rest => if Test it then true else CHECK_FOR_CONNECTIONS Test rest

/-- The method `ConnectionList::hasConnectionsWithSender`. -/
def ConnectionList.hasConnectionsWithSender (H : Heap) (sender : Nat) (w : World) : Bool :=
  CHECK_FOR_CONNECTIONS (fun it => decide (senderObject H it = sender)) w.connections_

/-- The method `ConnectionList::hasConnectionsWithReciever`. -/
def ConnectionList.hasConnectionsWithReciever (H : Heap) (reciever : Nat) (w : World) : Bool :=
  CHECK_FOR_CONNECTIONS (fun it => decide (recieverObject H it = reciever)) w.connections_

/-- The method `ConnectionList::hasConnectionsWithEvent`. -/
def ConnectionList.hasConnectionsWithEvent (H : Heap) (ev : Nat) (w : World) : Bool :=
  CHECK_FOR_CONNECTIONS (fun it => decide (senderEventRef H it = ev)) w.connections_

/-- The method `ConnectionList::hasConnectionsWithDelegate`. -/
def ConnectionList.hasConnectionsWithDelegate (H : Heap) (deleg : Nat) (w : World) : Bool :=
  CHECK_FOR_CONNECTIONS (fun it => decide (recieverDelegate H it = deleg)) w.connections_

/-- Call the query method the criterion names. -/
def ConnectionList.hasConnectionsWith (k : Criterion) (H : Heap) (id : Nat) (w : World) : Bool :=
  match k with
  | Criterion.Sender => ConnectionList.hasConnectionsWithSender H id w
  | Criterion.Reciver => ConnectionList.hasConnectionsWithReciever H id w
  | Criterion.Event => ConnectionList.hasConnectionsWithEvent H id w
  | Criterion.Delegate => ConnectionList.hasConnectionsWithDelegate H id w

/-- One step in the life of a registry: a Borrower is constructed at an address, the
Borrower at an address is destroyed, or a registry operation runs. -/
inductive Step where
  | construct (p : BufPtr)
  | destroy (p : BufPtr)
  | op (o : RegOp)

/-- Run one step. -/
def runStep (ndebug : Bool) : Step → Store → Except String Store
  | Step.construct p, s => Borrower.new ndebug p s
  | Step.destroy p, s => Borrower.delete ndebug p s
  | Step.op o, s => runOp ndebug o s

/-- Run steps in order; the first failed assertion ends the run. -/
def runSteps (ndebug : Bool) : List Step → Store → Except String Store
  | [], s => Except.ok s
  | st :: steps, s =>
    match runStep ndebug st s with
    | Except.ok t => runSteps ndebug steps t
    | Except.error e => Except.error e

/-! ## Theorems: swap-with-last removal on a vector -/

theorem removeConnection_loop_eq (conn : ConnPtr) (rest pre : List ConnPtr) (hpre : conn ∉ pre) :
    removeConnection.loop conn (pre ++ rest) pre.length rest =
      if conn ∈ rest then
        (true, ((pre ++ rest).set (pre.length + rest.indexOf conn)
          ((pre ++ rest).getLastD conn)).dropLast)
      else (false, pre ++ rest) := by
  induction rest generalizing pre with
  | nil => simp [removeConnection.loop]
  | cons x rest ih =>
    by_cases hx : conn = x
    · subst hx
      simp [removeConnection.loop]
    · have h1 : conn ∉ pre ++ [x] := by simp [hpre, hx]
      have h2 := ih (pre ++ [x]) h1
      simp only [List.append_assoc, List.singleton_append, List.length_append,
        List.length_singleton] at h2
      rw [removeConnection.loop, if_neg hx, h2]
      have hx2 : x ≠ conn := fun h => hx h.symm
      simp [hx, List.indexOf_cons_ne _ hx2, Nat.add_assoc, Nat.add_comm 1]

theorem removeConnection_eq (conn : ConnPtr) (v : ConnectionsVector) :
    removeConnection conn v =
      if conn ∈ v then (true, (v.set (v.indexOf conn) (v.getLastD conn)).dropLast)
      else (false, v) := by
  have h := removeConnection_loop_eq conn v [] (by simp)
  simpa [removeConnection] using h

theorem getLastD_cons_perm (d : ConnPtr) (t : List ConnPtr) (h : t ≠ []) :
    (t.getLastD d :: t.dropLast).Perm t := by
  have h1 : t.getLastD d = t.getLast h := by
    cases t with
    | nil => exact absurd rfl h
    | cons y t => rw [List.getLastD_cons, List.getLast_eq_getLastD]
  rw [h1]
  have h2 := List.dropLast_append_getLast h
  have h3 : (t.getLast h :: t.dropLast).Perm (t.dropLast ++ [t.getLast h]) := by
    simpa using (List.perm_append_comm : ([t.getLast h] ++ t.dropLast).Perm _)
  rw [h2] at h3
  exact h3

theorem swap_pop_perm_erase (c : ConnPtr) (v : ConnectionsVector) (h : c ∈ v) :
    ((v.set (v.indexOf c) (v.getLastD c)).dropLast).Perm (v.erase c) := by
  induction v with
  | nil => simp at h
  | cons x t ih =>
    by_cases hx : x = c
    · subst hx
      cases t with
      | nil => simp
      | cons y t =>
        simp only [List.indexOf_cons_self, List.set_cons_zero, List.erase_cons_head]
        rw [List.dropLast_cons_of_ne_nil (by simp)]
        rw [List.getLastD_cons]
        exact getLastD_cons_perm x (y :: t) (by simp)
    · have hct : c ∈ t := by
        rcases List.mem_cons.1 h with h1 | h1
        · exact absurd h1.symm hx
        · exact h1
      have hne : t ≠ [] := List.ne_nil_of_mem hct
      have hl : (x :: t).getLastD c = t.getLastD c := by
        cases t with
        | nil => exact absurd rfl hne
        | cons y t => rw [List.getLastD_cons, List.getLastD_cons, List.getLastD_cons]
      rw [List.indexOf_cons_ne _ hx, List.set_cons_succ, hl,
        List.dropLast_cons_of_ne_nil (by simpa using hne), List.erase_cons_tail (by simpa using hx)]
      exact (ih hct).cons x

theorem removeConnection_perm_erase (c : ConnPtr) (v : ConnectionsVector) :
    ((removeConnection c v).2).Perm (v.erase c) := by
  rw [removeConnection_eq]
  by_cases h : c ∈ v
  · rw [if_pos h]
    exact swap_pop_perm_erase c v h
  · rw [if_neg h, List.erase_of_not_mem h]

theorem edits_multiset (es : List Edit) (v : ConnectionsVector)
    (h : (↑(removedBy es) : Multiset ConnPtr) ≤ ↑v) :
    (↑(applyEdits es v) : Multiset ConnPtr) =
      ↑v - ↑(removedBy es) + ↑(pushedBy es) := by
  induction es generalizing v with
  | nil => simp [removedBy, pushedBy, applyEdits]
  | cons e es ih =>
    cases e with
    | push c =>
      simp only [removedBy, pushedBy, applyEdits, Edit.apply, push_back] at h ⊢
      have h1 : (↑(removedBy es) : Multiset ConnPtr) ≤ ↑(v ++ [c]) := by
        refine le_trans h ?_
        rw [← Multiset.coe_add]
        exact Multiset.le_add_right _ _
      rw [ih _ h1, ← Multiset.coe_add]
      have h2 : (↑(c :: pushedBy es) : Multiset ConnPtr) = ↑[c] + ↑(pushedBy es) := by
        rw [Multiset.coe_add]
        rfl
      rw [h2, ← add_assoc, tsub_add_eq_add_tsub h]
    | remove c =>
      simp only [removedBy, pushedBy, applyEdits, Edit.apply] at h ⊢
      have hp := removeConnection_perm_erase c v
      have hq : (↑(removeConnection c v).2 : Multiset ConnPtr) = (↑v : Multiset ConnPtr).erase c := by
        rw [Multiset.coe_erase]
        exact Multiset.coe_eq_coe.2 hp
      have h1 : (↑(removedBy es) : Multiset ConnPtr) ≤ ↑(removeConnection c v).2 := by
        rw [hq]
        rw [← Multiset.cons_coe] at h
        have := Multiset.erase_le_erase c h
        simpa using this
      rw [ih _ h1, hq, ← Multiset.cons_coe, Multiset.sub_cons]

/-! ## Theorems: the borrowable registry -/

theorem Borrower_new_ndebug (p : BufPtr) (s : Store) :
    Borrower.new true p s = Except.ok
      { src := { data_ := [], borrowed_ := some p }, buf := s.setBuf p s.src.data_ } := by
  rfl

theorem Borrower_new_assert (p : BufPtr) (s : Store) :
    Borrower.new false p s = Except.error "Data can be borrowed only once" := by
  simp [Borrower.new, assert, stringLiteral]

theorem mutableEdit_idle (ndebug : Bool) (f : ConnectionsVector → ConnectionsVector) (t : Store)
    (h : t.src.borrowed_ = none) :
    mutableEdit ndebug f t =
      Except.ok { src := { data_ := f t.src.data_, borrowed_ := none }, buf := t.buf } := by
  simp [mutableEdit, mutableRef, detach, h]

theorem mutableEdit_borrowed (ndebug : Bool) (f : ConnectionsVector → ConnectionsVector)
    (t : Store) (p : BufPtr) (h : t.src.borrowed_ = some p) (hd : t.src.data_ = []) :
    mutableEdit ndebug f t =
      Except.ok { src := { data_ := f (t.buf p), borrowed_ := none }, buf := t.buf } := by
  cases ndebug <;> simp [mutableEdit, mutableRef, detach, assert, h, hd]

theorem appendAll_idle (ndebug : Bool) (ys : List ConnPtr) (t : Store)
    (h : t.src.borrowed_ = none) :
    appendAll ndebug ys t =
      Except.ok { src := { data_ := t.src.data_ ++ ys, borrowed_ := none }, buf := t.buf } := by
  induction ys generalizing t with
  | nil =>
    cases t with
    | mk src buf =>
      cases src with
      | mk d b =>
        simp only at h
        subst h
        simp [appendAll]
  | cons c ys ih =>
    rw [appendAll, mutableEdit_idle _ _ _ h]
    simp only
    rw [ih _ rfl]
    simp [push_back]

theorem appendAll_borrowed (ndebug : Bool) (ys : List ConnPtr) (t : Store) (p : BufPtr)
    (h : t.src.borrowed_ = some p) (hd : t.src.data_ = []) (hys : ys ≠ []) :
    appendAll ndebug ys t =
      Except.ok { src := { data_ := t.buf p ++ ys, borrowed_ := none }, buf := t.buf } := by
  cases ys with
  | nil => exact absurd rfl hys
  | cons c ys =>
    rw [appendAll, mutableEdit_borrowed _ _ _ p h hd]
    simp only
    rw [appendAll_idle _ _ _ rfl]
    simp [push_back]

/-- C1: in a build with `NDEBUG`, on a registry holding `xs` (an idle one in particular),
a Borrower can be constructed, and after a non-empty sequence `ys` is appended through
`mutableRef()` while the Borrower is alive, the Borrower's `constData()` is still exactly
`xs`; the appended connections are only in the registry's own sequence, which reads
`xs ++ ys`.  In a build with active assertions the Borrower constructor aborts, so there
no Borrower is ever alive and no snapshot exists that could change. -/
theorem borrower_snapshot_stable (s : Store) (p : BufPtr) (ys : List ConnPtr) (hys : ys ≠ []) :
    (∃ s1 s2, Borrower.new true p s = Except.ok s1 ∧ appendAll true ys s1 = Except.ok s2 ∧
      Borrower.constData p s2 = s.src.data_ ∧
      constRef true s2 = Except.ok (s.src.data_ ++ ys) ∧
      isBorrowed s2 = false) ∧
    Borrower.new false p s = Except.error "Data can be borrowed only once" := by
  refine ⟨⟨_, _, Borrower_new_ndebug p s, appendAll_borrowed true ys _ p rfl rfl hys, ?_, ?_, rfl⟩,
    Borrower_new_assert p s⟩
  · simp [Borrower.constData, Store.setBuf]
  · simp [constRef, Store.setBuf]

theorem borrower_snapshot_stable_witness :
    (([3] : List ConnPtr) ≠ []) ∧
    ((∃ s1 s2, Borrower.new true 7 ⟨⟨[1, 2], none⟩, fun _ => []⟩ = Except.ok s1 ∧
      appendAll true [3] s1 = Except.ok s2 ∧
      Borrower.constData 7 s2 = [1, 2] ∧
      constRef true s2 = Except.ok ([1, 2] ++ [3]) ∧
      isBorrowed s2 = false) ∧
    Borrower.new false 7 ⟨⟨[1, 2], none⟩, fun _ => []⟩ =
      Except.error "Data can be borrowed only once") :=
  ⟨by decide, borrower_snapshot_stable ⟨⟨[1, 2], none⟩, fun _ => []⟩ 7 [3] (by decide)⟩

theorem runEdits_idle (ndebug : Bool) (es : List Edit) (t : Store)
    (h : t.src.borrowed_ = none) :
    runEdits ndebug es t =
      Except.ok { src := { data_ := applyEdits es t.src.data_, borrowed_ := none }, buf := t.buf } := by
  induction es generalizing t with
  | nil =>
    cases t with
    | mk src buf =>
      cases src with
      | mk d b =>
        simp only at h
        subst h
        simp [runEdits, applyEdits]
  | cons e es ih =>
    rw [runEdits, mutableEdit_idle _ _ _ h]
    simp only
    rw [ih _ rfl]
    simp [applyEdits]

theorem runEdits_borrowed (ndebug : Bool) (es : List Edit) (t : Store) (p : BufPtr)
    (h : t.src.borrowed_ = some p) (hd : t.src.data_ = []) (hes : es ≠ []) :
    runEdits ndebug es t =
      Except.ok { src := { data_ := applyEdits es (t.buf p), borrowed_ := none }, buf := t.buf } := by
  cases es with
  | nil => exact absurd rfl hes
  | cons e es =>
    rw [runEdits, mutableEdit_borrowed _ _ _ p h hd]
    simp only
    rw [runEdits_idle _ _ _ rfl]
    simp [applyEdits]

theorem Borrower_delete_owner (ndebug : Bool) (p : BufPtr) (t : Store)
    (h : t.src.borrowed_ = some p) (hd : t.src.data_ = []) :
    Borrower.delete ndebug p t =
      Except.ok { src := { data_ := t.buf p, borrowed_ := none }, buf := t.setBuf p [] } := by
  cases ndebug <;> simp [Borrower.delete, assert, h, hd]

theorem Borrower_delete_other (ndebug : Bool) (p : BufPtr) (t : Store)
    (h : t.src.borrowed_ ≠ some p) :
    Borrower.delete ndebug p t = Except.ok t := by
  simp [Borrower.delete, h]

theorem borrow_then_edits (s : Store) (p : BufPtr) (es : List Edit) :
    ∃ s1 s2 s3, Borrower.new true p s = Except.ok s1 ∧ runEdits true es s1 = Except.ok s2 ∧
      Borrower.delete true p s2 = Except.ok s3 ∧ isBorrowed s3 = false ∧
      constRef true s3 = Except.ok (applyEdits es s.src.data_) := by
  by_cases hes : es = []
  · subst hes
    refine ⟨_, _, _, Borrower_new_ndebug p s, rfl, Borrower_delete_owner true p _ rfl rfl, rfl, ?_⟩
    simp [constRef, Store.setBuf, applyEdits]
  · refine ⟨_, _, _, Borrower_new_ndebug p s, runEdits_borrowed true es _ p rfl rfl hes,
      Borrower_delete_other true p _ (by simp), rfl, ?_⟩
    simp [constRef, Store.setBuf]

/-- C2, as stated, fails when the registry holds a connection twice: in a build with
`NDEBUG`, on the idle registry `[1, 1]`, after a Borrower is constructed, connection `1`
is removed through `mutableRef()` and the Borrower is destroyed, `constRef()` reads `[1]`:
an entry that is in `D` is still there. -/
theorem duplicate_entry_survives_removal :
    (Borrower.new true 7 ⟨⟨[1, 1], none⟩, fun _ => []⟩ >>= runEdits true [Edit.remove 1] >>=
      Borrower.delete true 7 >>= constRef true) = Except.ok [1] := by
  rfl

/-- C2, amended: in a build with `NDEBUG`, on a registry holding `xs` (an idle one in
particular), a Borrower can be constructed, and after a set `D` of entries of `xs` is
removed and a sequence `ys` is appended (through `mutableRef()`, in any interleaving) and
the Borrower is destroyed, the registry is not borrowed and `constRef()` holds `xs` with
one occurrence of each connection of `D` taken out, together with `ys`, so
`|xs| - |D| + |ys|` entries; when `xs` has no duplicate entries these are exactly the
entries of `xs` not in `D` together with `ys`.  In a build with active assertions the
Borrower constructor aborts, so there no borrow ever begins or ends. -/
theorem borrow_end_reconciles (s : Store) (p : BufPtr) (es : List Edit)
    (hD : (removedBy es).Nodup) (hsub : ∀ c ∈ removedBy es, c ∈ s.src.data_) :
    (∃ s1 s2 s3 zs, Borrower.new true p s = Except.ok s1 ∧
      runEdits true es s1 = Except.ok s2 ∧
      Borrower.delete true p s2 = Except.ok s3 ∧ isBorrowed s3 = false ∧
      constRef true s3 = Except.ok zs ∧
      zs.Perm (s.src.data_.diff (removedBy es) ++ pushedBy es) ∧
      zs.length = s.src.data_.length - (removedBy es).length + (pushedBy es).length ∧
      (s.src.data_.Nodup →
        zs.Perm (s.src.data_.filter (fun c => decide (c ∉ removedBy es)) ++ pushedBy es))) ∧
    Borrower.new false p s = Except.error "Data can be borrowed only once" := by
  obtain ⟨s1, s2, s3, h1, h2, h3, h4, h5⟩ := borrow_then_edits s p es
  have hle : (↑(removedBy es) : Multiset ConnPtr) ≤ ↑s.src.data_ :=
    (Multiset.le_iff_subset (Multiset.coe_nodup.2 hD)).2 (fun c hc => hsub c hc)
  have hm := edits_multiset es s.src.data_ hle
  have hperm : (applyEdits es s.src.data_).Perm
      (s.src.data_.diff (removedBy es) ++ pushedBy es) := by
    rw [Multiset.coe_sub, Multiset.coe_add] at hm
    exact Multiset.coe_eq_coe.1 hm
  refine ⟨⟨s1, s2, s3, _, h1, h2, h3, h4, h5, hperm, ?_, ?_⟩, Borrower_new_assert p s⟩
  · have hc := congrArg Multiset.card hm
    rw [Multiset.card_add, Multiset.card_sub hle] at hc
    simpa using hc
  · intro hxs
    rw [← hxs.diff_eq_filter]
    exact hperm

theorem borrow_end_reconciles_witness :
    ((removedBy [Edit.push 4, Edit.remove 1, Edit.push 5]).Nodup ∧
      (∀ c ∈ removedBy [Edit.push 4, Edit.remove 1, Edit.push 5],
        c ∈ ([1, 2, 1] : List ConnPtr))) ∧
    ((∃ s1 s2 s3 zs, Borrower.new true 7 ⟨⟨[1, 2, 1], none⟩, fun _ => []⟩ = Except.ok s1 ∧
      runEdits true [Edit.push 4, Edit.remove 1, Edit.push 5] s1 = Except.ok s2 ∧
      Borrower.delete true 7 s2 = Except.ok s3 ∧ isBorrowed s3 = false ∧
      constRef true s3 = Except.ok zs ∧
      zs.Perm (([1, 2, 1] : List ConnPtr).diff
        (removedBy [Edit.push 4, Edit.remove 1, Edit.push 5]) ++
        pushedBy [Edit.push 4, Edit.remove 1, Edit.push 5]) ∧
      zs.length = ([1, 2, 1] : List ConnPtr).length -
        (removedBy [Edit.push 4, Edit.remove 1, Edit.push 5]).length +
        (pushedBy [Edit.push 4, Edit.remove 1, Edit.push 5]).length ∧
      (([1, 2, 1] : List ConnPtr).Nodup →
        zs.Perm (([1, 2, 1] : List ConnPtr).filter
          (fun c => decide (c ∉ removedBy [Edit.push 4, Edit.remove 1, Edit.push 5])) ++
          pushedBy [Edit.push 4, Edit.remove 1, Edit.push 5]))) ∧
    Borrower.new false 7 ⟨⟨[1, 2, 1], none⟩, fun _ => []⟩ =
      Except.error "Data can be borrowed only once") :=
  ⟨⟨by decide, by decide⟩,
    borrow_end_reconciles ⟨⟨[1, 2, 1], none⟩, fun _ => []⟩ 7
      [Edit.push 4, Edit.remove 1, Edit.push 5] (by decide) (by decide)⟩

/-- C3, as stated, fails: in a build with `NDEBUG`, with `xs = [1, 2]`, after a Borrower
is constructed and connection `1` is removed through `mutableRef()`, connection `1` is
still an entry of the Borrower's `constData()`. -/
theorem removed_entry_stays_in_snapshot :
    (Borrower.new true 7 ⟨⟨[1, 2], none⟩, fun _ => []⟩ >>=
        mutableEdit true (Edit.remove 1).apply).map
      (fun s => decide (1 ∈ Borrower.constData 7 s)) = Except.ok true := by
  rfl

/-- C3, amended: in a build with `NDEBUG`, on a registry holding `xs` (an idle one in
particular) with `c` in `xs`, a Borrower can be constructed, and after `c` is removed
through `mutableRef()` the registry is detached (no longer borrowed) and its own sequence
is `xs` with one occurrence of `c` taken out by swap-with-last, while the Borrower's
`constData()` is still `xs` and still contains `c`.  In a build with active assertions the
Borrower constructor aborts, so there no borrow is ever active. -/
theorem removal_in_borrow_detaches (s : Store) (p : BufPtr) (c : ConnPtr)
    (hc : c ∈ s.src.data_) :
    (∃ s1 s2, Borrower.new true p s = Except.ok s1 ∧
      mutableEdit true (Edit.remove c).apply s1 = Except.ok s2 ∧
      Borrower.constData p s2 = s.src.data_ ∧ c ∈ Borrower.constData p s2 ∧
      isBorrowed s2 = false ∧
      constRef true s2 = Except.ok (removeConnection c s.src.data_).2 ∧
      ((removeConnection c s.src.data_).2).Perm (s.src.data_.erase c) ∧
      (s.src.data_.Nodup → c ∉ (removeConnection c s.src.data_).2)) ∧
    Borrower.new false p s = Except.error "Data can be borrowed only once" := by
  have hbuf : s.setBuf p s.src.data_ p = s.src.data_ := by simp [Store.setBuf]
  refine ⟨⟨_, _, Borrower_new_ndebug p s, mutableEdit_borrowed true _ _ p rfl rfl, hbuf, ?_, rfl,
    ?_, removeConnection_perm_erase c _, ?_⟩, Borrower_new_assert p s⟩
  · rw [Borrower.constData]
    simp only
    rw [hbuf]
    exact hc
  · simp [constRef, Store.setBuf, Edit.apply]
  · intro hnd hmem
    have h1 := (removeConnection_perm_erase c s.src.data_).subset hmem
    exact (List.Nodup.not_mem_erase hnd) h1

theorem removal_in_borrow_detaches_witness :
    ((1 : ConnPtr) ∈ (⟨⟨[1, 2], none⟩, fun _ => []⟩ : Store).src.data_) ∧
    ((∃ s1 s2, Borrower.new true 7 ⟨⟨[1, 2], none⟩, fun _ => []⟩ = Except.ok s1 ∧
      mutableEdit true (Edit.remove 1).apply s1 = Except.ok s2 ∧
      Borrower.constData 7 s2 = [1, 2] ∧ 1 ∈ Borrower.constData 7 s2 ∧
      isBorrowed s2 = false ∧
      constRef true s2 = Except.ok (removeConnection 1 [1, 2]).2 ∧
      ((removeConnection 1 [1, 2]).2).Perm (([1, 2] : List ConnPtr).erase 1) ∧
      (([1, 2] : List ConnPtr).Nodup → 1 ∉ (removeConnection 1 [1, 2]).2)) ∧
    Borrower.new false 7 ⟨⟨[1, 2], none⟩, fun _ => []⟩ =
      Except.error "Data can be borrowed only once") :=
  ⟨by decide, removal_in_borrow_detaches ⟨⟨[1, 2], none⟩, fun _ => []⟩ 7 1 (by decide)⟩

theorem runOps_idle (ndebug : Bool) (ops : List RegOp) (t : Store)
    (h : t.src.borrowed_ = none) :
    ∃ t2, runOps ndebug ops t = Except.ok t2 ∧ t2.src.borrowed_ = none := by
  induction ops generalizing t with
  | nil => exact ⟨t, rfl, h⟩
  | cons op ops ih =>
    cases op with
    | constRef =>
      have h1 : runOp ndebug RegOp.constRef t = Except.ok t := by simp [runOp, constRef, h]
      rw [runOps, h1]
      exact ih t h
    | mutableRef f =>
      rw [runOps, runOp, mutableEdit_idle _ _ _ h]
      exact ih _ rfl
    | detach =>
      have h1 : runOp ndebug RegOp.detach t = Except.ok t := by simp [runOp, detach, h]
      rw [runOps, h1]
      exact ih t h

theorem runOps_borrowed (ndebug : Bool) (ops : List RegOp) (t : Store) (p : BufPtr)
    (h : t.src.borrowed_ = some p) (hd : t.src.data_ = []) :
    ∃ t2, runOps ndebug ops t = Except.ok t2 ∧
      ((∀ op ∈ ops, op.isRead = true) → t2 = t) ∧
      ((∃ op ∈ ops, op.isRead = false) → t2.src.borrowed_ = none) := by
  induction ops with
  | nil => exact ⟨t, rfl, fun _ => rfl, fun ⟨op, hop, _⟩ => absurd hop (List.not_mem_nil op)⟩
  | cons op ops ih =>
    cases op with
    | constRef =>
      have h1 : runOp ndebug RegOp.constRef t = Except.ok t := by
        cases ndebug <;> simp [runOp, constRef, assert, h, hd]
      obtain ⟨t2, e, hr, hw⟩ := ih
      refine ⟨t2, ?_, ?_, ?_⟩
      · rw [runOps, h1]
        exact e
      · intro hall
        exact hr (fun op hop => hall op (List.mem_cons_of_mem _ hop))
      · rintro ⟨op, hop, hf⟩
        rcases List.mem_cons.1 hop with h2 | h2
        · subst h2
          simp [RegOp.isRead] at hf
        · exact hw ⟨op, h2, hf⟩
    | mutableRef f =>
      obtain ⟨t2, e, hb⟩ := runOps_idle ndebug ops
        { src := { data_ := f (t.buf p), borrowed_ := none }, buf := t.buf } rfl
      refine ⟨t2, ?_, ?_, fun _ => hb⟩
      · rw [runOps, runOp, mutableEdit_borrowed _ _ _ p h hd]
        exact e
      · intro hall
        have := hall (RegOp.mutableRef f) (List.mem_cons_self _ _)
        simp [RegOp.isRead] at this
    | detach =>
      have h1 : runOp ndebug RegOp.detach t =
          Except.ok { t with src := { data_ := t.buf p, borrowed_ := none } } := by
        cases ndebug <;> simp [runOp, detach, assert, h, hd]
      obtain ⟨t2, e, hb⟩ := runOps_idle ndebug ops
        { t with src := { data_ := t.buf p, borrowed_ := none } } rfl
      refine ⟨t2, ?_, ?_, fun _ => hb⟩
      · rw [runOps, h1]
        exact e
      · intro hall
        have := hall RegOp.detach (List.mem_cons_self _ _)
        simp [RegOp.isRead] at this

/-- C4, the code at the failing input: the asserted expression of the Borrower
constructor is `!src_->borrowed_ && !"Data can be borrowed only once"`, whose second
operand is always false.  In a build with active assertions the constructor therefore
aborts on every registry, idle or not, and in particular the first Borrower on the idle
registry `[5]` cannot be constructed; in a build with `NDEBUG` the constructor never fails,
also on a borrowed registry, and after a first Borrower and one `constRef()` a second
Borrower is constructed and the registry points at the second buffer. -/
theorem borrow_once_assertion_misfires :
    (∀ (p : BufPtr) (s : Store),
        Borrower.new false p s = Except.error "Data can be borrowed only once") ∧
      (∀ (p : BufPtr) (s : Store), ∃ t, Borrower.new true p s = Except.ok t ∧
        t.src.borrowed_ = some p) ∧
      Borrower.new false 1 ⟨⟨[5], none⟩, fun _ => []⟩ =
        Except.error "Data can be borrowed only once" ∧
      (Borrower.new true 1 ⟨⟨[5], none⟩, fun _ => []⟩ >>= runOps true [RegOp.constRef] >>=
        Borrower.new true 2).map (fun s => s.src.borrowed_) = Except.ok (some 2) :=
  ⟨Borrower_new_assert, fun p s => ⟨_, Borrower_new_ndebug p s, rfl⟩,
    Borrower_new_assert 1 _, rfl⟩

/-! ## Theorems: connection lists -/

theorem runAction_calls (w : World) (a : ListAction) :
    (runAction w a).disconnectCalls = w.disconnectCalls := by
  cases a <;> rfl

theorem foldl_runAction_calls (acts : List ListAction) (w : World) :
    (acts.foldl runAction w).disconnectCalls = w.disconnectCalls := by
  induction acts generalizing w with
  | nil => rfl
  | cons a acts ih => rw [List.foldl_cons, ih, runAction_calls]

theorem notify_calls (B : Behaviour) (conn : ConnPtr) (w : World) (l : Listener) :
    (notify B conn w l).disconnectCalls = w.disconnectCalls := by
  cases l with
  | connectionBroken => rfl
  | other i => exact foldl_runAction_calls _ w

theorem foldl_notify_calls (B : Behaviour) (conn : ConnPtr) (ls : List Listener) (w : World) :
    (ls.foldl (notify B conn) w).disconnectCalls = w.disconnectCalls := by
  induction ls generalizing w with
  | nil => rfl
  | cons l ls ih => rw [List.foldl_cons, ih, notify_calls]

theorem disconnect_calls (B : Behaviour) (conn : ConnPtr) (w : World) :
    (AbstractConnection.disconnect B conn w).disconnectCalls = w.disconnectCalls ++ [conn] := by
  unfold AbstractConnection.disconnect
  by_cases h : conn ∈ w.broken
  · simp only [h, if_true]
  · simp only [h, if_false]
    rw [foldl_notify_calls]

theorem DISCONNECT_loop_spec (B : Behaviour) (Test : ConnPtr → Bool) (before : List ConnPtr)
    (after : ConnectionsVector) (retVal : Bool) (w : World) :
    (DISCONNECT_CONNECTIONS.loop B Test before (after, retVal, w)).1 =
        after ++ before.filter (fun c => !Test c) ∧
      (DISCONNECT_CONNECTIONS.loop B Test before (after, retVal, w)).2.1 =
        (retVal || before.any Test) ∧
      (DISCONNECT_CONNECTIONS.loop B Test before (after, retVal, w)).2.2.disconnectCalls =
        w.disconnectCalls ++ before.filter Test := by
  induction before generalizing after retVal w with
  | nil => simp [DISCONNECT_CONNECTIONS.loop]
  | cons c rest ih =>
    by_cases hc : Test c = true
    · rw [DISCONNECT_CONNECTIONS.loop, if_pos hc]
      obtain ⟨h1, h2, h3⟩ := ih after true (AbstractConnection.disconnect B c w)
      refine ⟨?_, ?_, ?_⟩
      · rw [h1]
        simp [hc]
      · rw [h2]
        simp [hc]
      · rw [h3, disconnect_calls]
        simp [hc]
    · rw [DISCONNECT_CONNECTIONS.loop, if_neg hc]
      obtain ⟨h1, h2, h3⟩ := ih (push_back c after) retVal w
      have hc2 : Test c = false := by simpa using hc
      refine ⟨?_, ?_, ?_⟩
      · rw [h1]
        simp [hc2, push_back]
      · rw [h2]
        simp [hc2]
      · rw [h3]
        simp [hc2]

theorem DISCONNECT_loop_no_match (B : Behaviour) (Test : ConnPtr → Bool) (before : List ConnPtr)
    (after : ConnectionsVector) (retVal : Bool) (w : World)
    (h : ∀ c ∈ before, Test c = false) :
    DISCONNECT_CONNECTIONS.loop B Test before (after, retVal, w) = (after ++ before, retVal, w) := by
  induction before generalizing after with
  | nil => simp [DISCONNECT_CONNECTIONS.loop]
  | cons c rest ih =>
    have hc : Test c = false := h c (List.mem_cons_self _ _)
    rw [DISCONNECT_CONNECTIONS.loop, if_neg (by simp [hc]),
      ih _ (fun x hx => h x (List.mem_cons_of_mem _ hx))]
    simp [push_back]

theorem DISCONNECT_no_match (B : Behaviour) (Test : ConnPtr → Bool) (w : World)
    (h : ∀ c ∈ w.connections_, Test c = false) :
    DISCONNECT_CONNECTIONS B Test w = (false, w) := by
  unfold DISCONNECT_CONNECTIONS
  rw [DISCONNECT_loop_no_match B Test _ _ _ _ h]
  cases w
  simp

theorem DISCONNECT_connections (B : Behaviour) (Test : ConnPtr → Bool) (w : World) :
    (DISCONNECT_CONNECTIONS B Test w).2.connections_ =
      w.connections_.filter (fun c => !Test c) := by
  obtain ⟨h1, _, _⟩ := DISCONNECT_loop_spec B Test w.connections_ [] false
    { w with connections_ := [] }
  simpa [DISCONNECT_CONNECTIONS] using h1

theorem disconnectFrom_eq (k : Criterion) (H : Heap) (B : Behaviour) (id : Nat) (w : World) :
    ConnectionList.disconnectFrom k H B id w = DISCONNECT_CONNECTIONS B (k.test H id) w := by
  cases k <;> rfl

/-- C5: for each of `disconnectFromSender`, `disconnectFromReciver`, `disconnectFromEvent`,
`disconnectFromDelegate` and any identity `id`, whatever the listeners do (so in
particular when no listener adds connections to the list), the list after the call is
exactly the subsequence of the former contents whose entries do not match `id`, in the
original order, and `disconnect()` has been called once on each matching entry, in order,
and on nothing else. -/
theorem disconnectFrom_partitions (k : Criterion) (H : Heap) (B : Behaviour) (id : Nat)
    (w : World) :
    (ConnectionList.disconnectFrom k H B id w).2.connections_ =
        w.connections_.filter (fun c => !k.test H id c) ∧
      (ConnectionList.disconnectFrom k H B id w).2.disconnectCalls =
        w.disconnectCalls ++ w.connections_.filter (k.test H id) := by
  rw [disconnectFrom_eq]
  obtain ⟨h1, _, h3⟩ := DISCONNECT_loop_spec B (k.test H id) w.connections_ [] false
    { w with connections_ := [] }
  exact ⟨by simpa [DISCONNECT_CONNECTIONS] using h1, by simpa [DISCONNECT_CONNECTIONS] using h3⟩

/-- C6: each disconnect-by-criteria method returns true if and only if some connection in
the list before the call matches `id`; when none matches it returns false and leaves the
list, the listeners and the record of `disconnect()` calls exactly as they were. -/
theorem disconnectFrom_returns_any_match (k : Criterion) (H : Heap) (B : Behaviour) (id : Nat)
    (w : World) :
    ((ConnectionList.disconnectFrom k H B id w).1 = true ↔
        ∃ c ∈ w.connections_, k.test H id c = true) ∧
      ((∀ c ∈ w.connections_, k.test H id c = false) →
        (ConnectionList.disconnectFrom k H B id w).1 = false ∧
        (ConnectionList.disconnectFrom k H B id w).2 = w) := by
  rw [disconnectFrom_eq]
  constructor
  · obtain ⟨_, h2, _⟩ := DISCONNECT_loop_spec B (k.test H id) w.connections_ [] false
      { w with connections_ := [] }
    have h : (DISCONNECT_CONNECTIONS B (k.test H id) w).1 = w.connections_.any (k.test H id) := by
      simpa [DISCONNECT_CONNECTIONS] using h2
    rw [h, List.any_eq_true]
  · intro h
    rw [DISCONNECT_no_match B _ w h]
    exact ⟨rfl, rfl⟩

theorem disconnectFrom_returns_any_match_witness :
    (∀ c ∈ (⟨[1, 2], fun _ => [Listener.connectionBroken], [], [], []⟩ : World).connections_,
        Criterion.test Criterion.Reciver (fun c => ⟨0, 0, c, 0⟩) 5 c = false) ∧
    (ConnectionList.disconnectFrom Criterion.Reciver (fun c => ⟨0, 0, c, 0⟩) (fun _ _ _ => []) 5
        ⟨[1, 2], fun _ => [Listener.connectionBroken], [], [], []⟩).1 = false ∧
    (ConnectionList.disconnectFrom Criterion.Reciver (fun c => ⟨0, 0, c, 0⟩) (fun _ _ _ => []) 5
        ⟨[1, 2], fun _ => [Listener.connectionBroken], [], [], []⟩).2 =
      ⟨[1, 2], fun _ => [Listener.connectionBroken], [], [], []⟩ :=
  ⟨by decide,
    (disconnectFrom_returns_any_match Criterion.Reciver (fun c => ⟨0, 0, c, 0⟩) (fun _ _ _ => []) 5
      ⟨[1, 2], fun _ => [Listener.connectionBroken], [], [], []⟩).2 (by decide)⟩

/-- C7: calling the same disconnect-by-criteria method with the same `id` a second time
right after the first returns false and leaves the list (and everything else) exactly as
the first call left it, whatever the listeners do (so in particular when they add no
connections). -/
theorem disconnectFrom_twice (k : Criterion) (H : Heap) (B : Behaviour) (id : Nat) (w : World) :
    (ConnectionList.disconnectFrom k H B id (ConnectionList.disconnectFrom k H B id w).2).1 = false ∧
      (ConnectionList.disconnectFrom k H B id (ConnectionList.disconnectFrom k H B id w).2).2 =
        (ConnectionList.disconnectFrom k H B id w).2 := by
  have hno : ∀ c ∈ (ConnectionList.disconnectFrom k H B id w).2.connections_,
      k.test H id c = false := by
    intro c hc
    rw [disconnectFrom_eq, DISCONNECT_connections, List.mem_filter] at hc
    simpa using hc.2
  rw [disconnectFrom_eq k H B id (ConnectionList.disconnectFrom k H B id w).2,
    DISCONNECT_no_match B _ _ hno]
  exact ⟨rfl, rfl⟩

theorem removeConnection_nil (conn : ConnPtr) : removeConnection conn [] = (false, []) := by
  rfl

theorem runAction_quiet (B : Behaviour) (hB : NoAdds B) (i : Nat) (conn : ConnPtr)
    (v : ConnectionsVector) (acts : List ListAction) (hacts : ∀ a ∈ acts, a ∈ B i conn v)
    (w : World) (h : w.connections_ = []) :
    (acts.foldl runAction w).connections_ = [] ∧
      (acts.foldl runAction w).brokenLog = w.brokenLog := by
  induction acts generalizing w with
  | nil => exact ⟨h, rfl⟩
  | cons a acts ih =>
    have ha : a ∈ B i conn v := hacts a (List.mem_cons_self _ _)
    cases a with
    | addConnection c => exact absurd ha (hB i conn v c)
    | removeConnection c =>
      have h1 : (runAction w (ListAction.removeConnection c)).connections_ = [] := by
        simp [runAction, ConnectionList.removeConnection, h, removeConnection_nil]
      obtain ⟨h2, h3⟩ := ih (fun a ha => hacts a (List.mem_cons_of_mem _ ha)) _ h1
      exact ⟨h2, h3⟩

theorem notify_quiet (B : Behaviour) (hB : NoAdds B) (conn : ConnPtr) (w : World) (l : Listener)
    (h : w.connections_ = []) :
    (notify B conn w l).connections_ = [] ∧
      ∃ news, (notify B conn w l).brokenLog = w.brokenLog ++ news ∧ ∀ e ∈ news, e.2 = false := by
  cases l with
  | connectionBroken =>
    refine ⟨?_, [(conn, false)], ?_, ?_⟩
    · simp [notify, ConnectionList.connectionBroken, ConnectionList.removeConnection, h,
        removeConnection_nil]
    · simp [notify, ConnectionList.connectionBroken, ConnectionList.removeConnection, h,
        removeConnection_nil]
    · simp
  | other i =>
    obtain ⟨h1, h2⟩ := runAction_quiet B hB i conn w.connections_ _ (fun _ ha => ha) w h
    exact ⟨h1, [], by simpa [notify] using h2, by simp⟩

theorem foldl_notify_quiet (B : Behaviour) (hB : NoAdds B) (conn : ConnPtr) (ls : List Listener)
    (w : World) (h : w.connections_ = []) :
    (ls.foldl (notify B conn) w).connections_ = [] ∧
      ∃ news, (ls.foldl (notify B conn) w).brokenLog = w.brokenLog ++ news ∧
        ∀ e ∈ news, e.2 = false := by
  induction ls generalizing w with
  | nil => exact ⟨h, [], by simp, by simp⟩
  | cons l ls ih =>
    obtain ⟨h1, n1, h2, h3⟩ := notify_quiet B hB conn w l h
    obtain ⟨h4, n2, h5, h6⟩ := ih _ h1
    refine ⟨h4, n1 ++ n2, ?_, ?_⟩
    · rw [List.foldl_cons, h5, h2, List.append_assoc]
    · intro e he
      rcases List.mem_append.1 he with h7 | h7
      · exact h3 e h7
      · exact h6 e h7

theorem disconnect_quiet (B : Behaviour) (hB : NoAdds B) (conn : ConnPtr) (w : World)
    (h : w.connections_ = []) :
    (AbstractConnection.disconnect B conn w).connections_ = [] ∧
      ∃ news, (AbstractConnection.disconnect B conn w).brokenLog = w.brokenLog ++ news ∧
        ∀ e ∈ news, e.2 = false := by
  unfold AbstractConnection.disconnect
  by_cases hb : conn ∈ w.broken
  · simp only [hb, if_true]
    exact ⟨h, [], by simp, by simp⟩
  · simp only [hb, if_false]
    exact foldl_notify_quiet B hB conn _ _ h

theorem disconnectAll_loop_quiet (B : Behaviour) (hB : NoAdds B) (tmp : List ConnPtr) (w : World)
    (h : w.connections_ = []) :
    (ConnectionList.disconnectAll.loop B tmp w).connections_ = [] ∧
      (ConnectionList.disconnectAll.loop B tmp w).disconnectCalls = w.disconnectCalls ++ tmp ∧
      ∃ news, (ConnectionList.disconnectAll.loop B tmp w).brokenLog = w.brokenLog ++ news ∧
        ∀ e ∈ news, e.2 = false := by
  induction tmp generalizing w with
  | nil => exact ⟨h, by simp [ConnectionList.disconnectAll.loop], [], by simp [ConnectionList.disconnectAll.loop], by simp⟩
  | cons c rest ih =>
    obtain ⟨h1, n1, h2, h3⟩ := disconnect_quiet B hB c w h
    obtain ⟨h4, h5, n2, h6, h7⟩ := ih _ h1
    rw [ConnectionList.disconnectAll.loop]
    refine ⟨h4, ?_, n1 ++ n2, ?_, ?_⟩
    · rw [h5, disconnect_calls]
      simp
    · rw [h6, h2, List.append_assoc]
    · intro e he
      rcases List.mem_append.1 he with h8 | h8
      · exact h3 e h8
      · exact h7 e h8

/-- C8: when no listener adds connections to the list, after `disconnectAll()` the list is
empty, `disconnect()` has been called exactly once for each former entry (in order) and
for nothing else, and every `connectionBroken` notification the list received during the
teardown found nothing to remove (its `removeConnection` returned false). -/
theorem disconnectAll_empties (B : Behaviour) (w : World) (hB : NoAdds B) :
    (ConnectionList.disconnectAll B w).connections_ = [] ∧
      (ConnectionList.disconnectAll B w).disconnectCalls = w.disconnectCalls ++ w.connections_ ∧
      ∃ news, (ConnectionList.disconnectAll B w).brokenLog = w.brokenLog ++ news ∧
        ∀ e ∈ news, e.2 = false :=
  disconnectAll_loop_quiet B hB w.connections_ { w with connections_ := [] } rfl

theorem disconnectAll_empties_witness :
    NoAdds (fun _ _ _ => [ListAction.removeConnection 2]) ∧
    (ConnectionList.disconnectAll (fun _ _ _ => [ListAction.removeConnection 2])
        ⟨[1, 2], fun _ => [Listener.connectionBroken, Listener.other 0], [], [], []⟩).connections_ = [] ∧
      (ConnectionList.disconnectAll (fun _ _ _ => [ListAction.removeConnection 2])
        ⟨[1, 2], fun _ => [Listener.connectionBroken, Listener.other 0], [], [], []⟩).disconnectCalls =
        [] ++ [1, 2] ∧
      ∃ news, (ConnectionList.disconnectAll (fun _ _ _ => [ListAction.removeConnection 2])
        ⟨[1, 2], fun _ => [Listener.connectionBroken, Listener.other 0], [], [], []⟩).brokenLog =
          [] ++ news ∧ ∀ e ∈ news, e.2 = false :=
  have hB : NoAdds (fun _ _ _ => [ListAction.removeConnection 2]) := by
    intro i conn v a h
    simp at h
  ⟨hB, disconnectAll_empties (fun _ _ _ => [ListAction.removeConnection 2])
    ⟨[1, 2], fun _ => [Listener.connectionBroken, Listener.other 0], [], [], []⟩ hB⟩

theorem count_removeConnection_le (x c : ConnPtr) (v : ConnectionsVector) :
    (removeConnection c v).2.count x ≤ v.count x := by
  rw [(removeConnection_perm_erase c v).count_eq x]
  exact (List.erase_sublist c v).count_le x

theorem runAction_tracked (L0 : ConnPtr → List Listener) (w : World) (a : ListAction)
    (h : ∀ x, ∃ n, w.listeners_ x = L0 x ++ List.replicate n Listener.connectionBroken ∧
      w.connections_.count x ≤ n) :
    ∀ x, ∃ n, (runAction w a).listeners_ x =
        L0 x ++ List.replicate n Listener.connectionBroken ∧
      (runAction w a).connections_.count x ≤ n := by
  intro x
  obtain ⟨n, hl, hc⟩ := h x
  cases a with
  | addConnection c =>
    by_cases hx : x = c
    · subst hx
      refine ⟨n + 1, ?_, ?_⟩
      · simp [runAction, ConnectionList.addConnection, doAddDisconnectListener, hl,
          List.replicate_succ']
      · simp [runAction, ConnectionList.addConnection, doAddDisconnectListener, push_back,
          List.count_append, hc]
    · refine ⟨n, ?_, ?_⟩
      · simp [runAction, ConnectionList.addConnection, doAddDisconnectListener, hl, hx]
      · have hcx : c ≠ x := fun e => hx e.symm
        simpa [runAction, ConnectionList.addConnection, doAddDisconnectListener, push_back,
          List.count_append, List.count_cons, hcx] using hc
  | removeConnection c =>
    exact ⟨n, hl, le_trans (count_removeConnection_le x c w.connections_) hc⟩

theorem foldl_runAction_tracked (L0 : ConnPtr → List Listener) (acts : List ListAction)
    (w : World)
    (h : ∀ x, ∃ n, w.listeners_ x = L0 x ++ List.replicate n Listener.connectionBroken ∧
      w.connections_.count x ≤ n) :
    ∀ x, ∃ n, (acts.foldl runAction w).listeners_ x =
        L0 x ++ List.replicate n Listener.connectionBroken ∧
      (acts.foldl runAction w).connections_.count x ≤ n := by
  induction acts generalizing w with
  | nil => exact h
  | cons a acts ih =>
    rw [List.foldl_cons]
    exact ih _ (runAction_tracked L0 w a h)

theorem notify_tracked (L0 : ConnPtr → List Listener) (B : Behaviour) (conn : ConnPtr)
    (w : World) (l : Listener)
    (h : ∀ x, ∃ n, w.listeners_ x = L0 x ++ List.replicate n Listener.connectionBroken ∧
      w.connections_.count x ≤ n) :
    ∀ x, ∃ n, (notify B conn w l).listeners_ x =
        L0 x ++ List.replicate n Listener.connectionBroken ∧
      (notify B conn w l).connections_.count x ≤ n := by
  cases l with
  | connectionBroken =>
    intro x
    obtain ⟨n, hl, hc⟩ := h x
    exact ⟨n, hl, le_trans (count_removeConnection_le x conn w.connections_) hc⟩
  | other i => exact foldl_runAction_tracked L0 _ w h

theorem foldl_notify_tracked (L0 : ConnPtr → List Listener) (B : Behaviour) (conn : ConnPtr)
    (ls : List Listener) (w : World)
    (h : ∀ x, ∃ n, w.listeners_ x = L0 x ++ List.replicate n Listener.connectionBroken ∧
      w.connections_.count x ≤ n) :
    ∀ x, ∃ n, (ls.foldl (notify B conn) w).listeners_ x =
        L0 x ++ List.replicate n Listener.connectionBroken ∧
      (ls.foldl (notify B conn) w).connections_.count x ≤ n := by
  induction ls generalizing w with
  | nil => exact h
  | cons l ls ih =>
    rw [List.foldl_cons]
    exact ih _ (notify_tracked L0 B conn w l h)

theorem disconnect_tracked (L0 : ConnPtr → List Listener) (B : Behaviour) (conn : ConnPtr)
    (w : World)
    (h : ∀ x, ∃ n, w.listeners_ x = L0 x ++ List.replicate n Listener.connectionBroken ∧
      w.connections_.count x ≤ n) :
    ∀ x, ∃ n, (AbstractConnection.disconnect B conn w).listeners_ x =
        L0 x ++ List.replicate n Listener.connectionBroken ∧
      (AbstractConnection.disconnect B conn w).connections_.count x ≤ n := by
  unfold AbstractConnection.disconnect
  by_cases hb : conn ∈ w.broken
  · simp only [hb, if_true]
    exact h
  · simp only [hb, if_false]
    exact foldl_notify_tracked L0 B conn _ _ h

theorem disconnectAll_loop_tracked (L0 : ConnPtr → List Listener) (B : Behaviour)
    (tmp : List ConnPtr) (w : World)
    (h : ∀ x, ∃ n, w.listeners_ x = L0 x ++ List.replicate n Listener.connectionBroken ∧
      w.connections_.count x ≤ n) :
    (ConnectionList.disconnectAll.loop B tmp w).disconnectCalls = w.disconnectCalls ++ tmp ∧
      ∀ x, ∃ n, (ConnectionList.disconnectAll.loop B tmp w).listeners_ x =
          L0 x ++ List.replicate n Listener.connectionBroken ∧
        (ConnectionList.disconnectAll.loop B tmp w).connections_.count x ≤ n := by
  induction tmp generalizing w with
  | nil => exact ⟨by simp [ConnectionList.disconnectAll.loop], h⟩
  | cons c rest ih =>
    obtain ⟨h1, h2⟩ := ih _ (disconnect_tracked L0 B c w h)
    rw [ConnectionList.disconnectAll.loop]
    refine ⟨?_, h2⟩
    rw [h1, disconnect_calls]
    simp

/-- C9, as stated, fails: the list holds connection `1`, on which a foreign listener is
registered that calls `addConnection(9)` on this list when `1` is broken.  When
`disconnectAll()` returns the list holds `9`, and `disconnect()` was called on `1` only. -/
theorem disconnectAll_leaves_added_connection :
    ((ConnectionList.disconnectAll (fun _ _ _ => [ListAction.addConnection 9])
        ⟨[1], fun c => if c = 1 then [Listener.connectionBroken, Listener.other 0] else [],
          [], [], []⟩).connections_,
      (ConnectionList.disconnectAll (fun _ _ _ => [ListAction.addConnection 9])
        ⟨[1], fun c => if c = 1 then [Listener.connectionBroken, Listener.other 0] else [],
          [], [], []⟩).disconnectCalls) = ([9], [1]) := by
  rfl

/-- C9, amended: for every list with contents `xs` and every behaviour of the listeners,
`disconnectAll()` calls `disconnect()` exactly once for each entry of `xs`, in order, and
makes no other `disconnect()` call, so a connection that was not in `xs` is not
disconnected by it, whether a listener added it during the teardown or not.  For every
connection `x` there is a number `n` of `addConnection(x)` calls that listeners made on
this list during the teardown: they are the only change to the listeners of `x` (each one
registered `connectionBroken` on `x` once more), and the list on return holds `x` at most
`n` times.  So the list on return holds only connections that listeners added during the
teardown. -/
theorem disconnectAll_disconnects_former_entries_only (B : Behaviour) (w : World) :
    (ConnectionList.disconnectAll B w).disconnectCalls = w.disconnectCalls ++ w.connections_ ∧
      (∀ x, ∃ n, (ConnectionList.disconnectAll B w).listeners_ x =
          w.listeners_ x ++ List.replicate n Listener.connectionBroken ∧
        (ConnectionList.disconnectAll B w).connections_.count x ≤ n) ∧
      (∀ x, x ∉ w.connections_ →
        (ConnectionList.disconnectAll B w).disconnectCalls.count x =
          w.disconnectCalls.count x) := by
  obtain ⟨h1, h2⟩ := disconnectAll_loop_tracked w.listeners_ B w.connections_
    { w with connections_ := [] } (fun x => ⟨0, by simp, by simp⟩)
  refine ⟨h1, h2, ?_⟩
  intro x hx
  have h3 : (ConnectionList.disconnectAll B w).disconnectCalls =
      w.disconnectCalls ++ w.connections_ := h1
  rw [h3, List.count_append, List.count_eq_zero_of_not_mem hx, Nat.add_zero]

theorem disconnectAll_disconnects_former_entries_only_witness :
    ((9 : ConnPtr) ∉ (⟨[1], fun c => if c = 1 then [Listener.connectionBroken, Listener.other 0]
        else [], [], [], []⟩ : World).connections_) ∧
    (ConnectionList.disconnectAll (fun _ _ _ => [ListAction.addConnection 9])
        ⟨[1], fun c => if c = 1 then [Listener.connectionBroken, Listener.other 0] else [],
          [], [], []⟩).disconnectCalls.count 9 =
      (⟨[1], fun c => if c = 1 then [Listener.connectionBroken, Listener.other 0] else [],
        [], [], []⟩ : World).disconnectCalls.count 9 :=
  ⟨by decide,
    (disconnectAll_disconnects_former_entries_only (fun _ _ _ => [ListAction.addConnection 9])
      ⟨[1], fun c => if c = 1 then [Listener.connectionBroken, Listener.other 0] else [],
        [], [], []⟩).2.2 9 (by decide)⟩

theorem getLastD_eq_getLast (c : ConnPtr) (v : List ConnPtr) (h : v ≠ []) :
    v.getLastD c = v.getLast h := by
  cases v with
  | nil => exact absurd rfl h
  | cons y t => rw [List.getLastD_cons, List.getLast_eq_getLastD]

/-- C10: `removeConnection(c)` returns true if and only if `c` occurs in the list; when
it does, the resulting list is the former one with the first occurrence of `c` overwritten
by the former last element and the last slot popped, so it is one shorter and, as a
multiset, the former list minus one `c`; when `c` does not occur the list (and
everything else) is unchanged.  `connectionBroken(c)` leaves the same list as
`removeConnection(c)`. -/
theorem removeConnection_removes_one (c : ConnPtr) (w : World) :
    ((ConnectionList.removeConnection c w).1 = true ↔ c ∈ w.connections_) ∧
      (∀ hc : c ∈ w.connections_,
        (ConnectionList.removeConnection c w).2.connections_ =
          (w.connections_.set (w.connections_.indexOf c)
            (w.connections_.getLast (List.ne_nil_of_mem hc))).dropLast ∧
        (ConnectionList.removeConnection c w).2.connections_.length + 1 =
          w.connections_.length ∧
        ((ConnectionList.removeConnection c w).2.connections_).Perm (w.connections_.erase c)) ∧
      (c ∉ w.connections_ → (ConnectionList.removeConnection c w).2 = w) ∧
      (ConnectionList.connectionBroken c w).connections_ =
        (ConnectionList.removeConnection c w).2.connections_ := by
  have heq := removeConnection_eq c w.connections_
  refine ⟨?_, ?_, ?_, rfl⟩
  · by_cases hc : c ∈ w.connections_
    · simp [ConnectionList.removeConnection, heq, hc]
    · simp [ConnectionList.removeConnection, heq, hc]
  · intro hc
    have h1 : (ConnectionList.removeConnection c w).2.connections_ =
        (w.connections_.set (w.connections_.indexOf c) (w.connections_.getLastD c)).dropLast := by
      simp [ConnectionList.removeConnection, heq, hc]
    have hp : ((ConnectionList.removeConnection c w).2.connections_).Perm
        (w.connections_.erase c) := removeConnection_perm_erase c w.connections_
    refine ⟨?_, ?_, hp⟩
    · rw [h1, getLastD_eq_getLast c _ (List.ne_nil_of_mem hc)]
    · rw [hp.length_eq, List.length_erase_of_mem hc]
      have hpos : 0 < w.connections_.length := List.length_pos_of_mem hc
      omega
  · intro hc
    cases w
    simp_all [ConnectionList.removeConnection]

theorem removeConnection_removes_one_witness :
    ((3 : ConnPtr) ∈ (⟨[3, 4, 3, 5], fun _ => [], [], [], []⟩ : World).connections_) ∧
    (ConnectionList.removeConnection 3 ⟨[3, 4, 3, 5], fun _ => [], [], [], []⟩).2.connections_ =
      (([3, 4, 3, 5] : List ConnPtr).set (([3, 4, 3, 5] : List ConnPtr).indexOf 3)
        (([3, 4, 3, 5] : List ConnPtr).getLast (by decide))).dropLast ∧
    (ConnectionList.removeConnection 3 ⟨[3, 4, 3, 5], fun _ => [], [], [], []⟩).2.connections_.length
      + 1 = ([3, 4, 3, 5] : List ConnPtr).length ∧
    ((ConnectionList.removeConnection 3 ⟨[3, 4, 3, 5], fun _ => [], [], [], []⟩).2.connections_).Perm
      (([3, 4, 3, 5] : List ConnPtr).erase 3) :=
  ⟨by decide,
    (removeConnection_removes_one 3 ⟨[3, 4, 3, 5], fun _ => [], [], [], []⟩).2.1 (by decide)⟩

/-! ## Theorems: adding to a connection list -/

theorem set_indexOf_self (c : ConnPtr) (l : List ConnPtr) (h : c ∈ l) :
    l.set (l.indexOf c) c = l := by
  induction l with
  | nil => simp at h
  | cons x t ih =>
    by_cases hx : x = c
    · subst hx
      simp
    · have hct : c ∈ t := by
        rcases List.mem_cons.1 h with h1 | h1
        · exact absurd h1.symm hx
        · exact h1
      rw [List.indexOf_cons_ne _ hx, List.set_cons_succ, ih hct]

theorem removeConnection_append_self (c : ConnPtr) (xs : ConnectionsVector) :
    removeConnection c (xs ++ [c]) = (true, xs) := by
  have hc : c ∈ xs ++ [c] := by simp
  have hl : (xs ++ [c]).getLastD c = c := by
    rw [getLastD_eq_getLast c (xs ++ [c]) (by simp)]
    simp
  rw [removeConnection_eq, if_pos hc, hl, set_indexOf_self c _ hc]
  simp

/-- C11: for every list with contents `xs` and every connection `c`, whether or not `c`
already occurs in `xs`, `addConnection(c)` followed by `connectionBroken(c)` leaves the
list exactly `xs`: the add makes it one longer, the notification finds an entry to remove
and makes it one shorter again. -/
theorem add_then_broken_restores (c : ConnPtr) (w : World) :
    (ConnectionList.connectionBroken c (ConnectionList.addConnection c w).2).connections_ =
        w.connections_ ∧
      (ConnectionList.addConnection c w).2.connections_.length = w.connections_.length + 1 ∧
      (ConnectionList.connectionBroken c (ConnectionList.addConnection c w).2).connections_.length
        + 1 = (ConnectionList.addConnection c w).2.connections_.length ∧
      (ConnectionList.connectionBroken c (ConnectionList.addConnection c w).2).brokenLog =
        w.brokenLog ++ [(c, true)] := by
  have h := removeConnection_append_self c w.connections_
  refine ⟨?_, ?_, ?_, ?_⟩
  · simp [ConnectionList.connectionBroken, ConnectionList.removeConnection,
      ConnectionList.addConnection, doAddDisconnectListener, push_back, h]
  · simp [ConnectionList.addConnection, doAddDisconnectListener, push_back]
  · simp [ConnectionList.connectionBroken, ConnectionList.removeConnection,
      ConnectionList.addConnection, doAddDisconnectListener, push_back, h]
  · simp [ConnectionList.connectionBroken, ConnectionList.removeConnection,
      ConnectionList.addConnection, doAddDisconnectListener, push_back, h]

/-- C12: for every list with contents `xs` and every connection `c`, whatever the
identities of `c` and of the entries of `xs` are, `addConnection(c)` returns `c`, appends
the list's `connectionBroken` delegate to the listeners of `c` (and of no other
connection), and leaves the list equal to `xs` followed by `c`, one entry longer; nothing
is disconnected. -/
theorem addConnection_appends (c : ConnPtr) (w : World) :
    (ConnectionList.addConnection c w).1 = c ∧
      (ConnectionList.addConnection c w).2.connections_ = w.connections_ ++ [c] ∧
      (ConnectionList.addConnection c w).2.connections_.length = w.connections_.length + 1 ∧
      (ConnectionList.addConnection c w).2.listeners_ =
        (fun d => if d = c then w.listeners_ d ++ [Listener.connectionBroken]
          else w.listeners_ d) ∧
      (ConnectionList.addConnection c w).2.disconnectCalls = w.disconnectCalls ∧
      (ConnectionList.addConnection c w).2.broken = w.broken := by
  refine ⟨rfl, rfl, ?_, rfl, rfl, rfl⟩
  simp [ConnectionList.addConnection, doAddDisconnectListener, push_back]

/-! ## Theorems: the life of a borrow -/

/-- C13: in a build with `NDEBUG`, on a registry holding `xs` (an idle one in particular),
a Borrower can be constructed, after which `isBorrowed()` is true and both `constRef()`
and the Borrower's `constData()` read `xs`; if only `constRef()` is called before the
Borrower is destroyed (no `mutableRef()`, no `detach()`), then afterwards `isBorrowed()`
is false and `data_` is `xs` again.  In a build with active assertions the Borrower
constructor aborts, so there the registry is never borrowed. -/
theorem borrow_transparent (s : Store) (p : BufPtr) (ops : List RegOp)
    (hread : ∀ op ∈ ops, op.isRead = true) :
    (∃ s1 s2 s3, Borrower.new true p s = Except.ok s1 ∧
      isBorrowed s1 = true ∧ constRef true s1 = Except.ok s.src.data_ ∧
      Borrower.constData p s1 = s.src.data_ ∧
      runOps true ops s1 = Except.ok s2 ∧ Borrower.delete true p s2 = Except.ok s3 ∧
      isBorrowed s3 = false ∧ s3.src.data_ = s.src.data_ ∧
      constRef true s3 = Except.ok s.src.data_) ∧
    Borrower.new false p s = Except.error "Data can be borrowed only once" := by
  have hbuf : s.setBuf p s.src.data_ p = s.src.data_ := by simp [Store.setBuf]
  obtain ⟨s2, e, hr, _⟩ := runOps_borrowed true ops
    { src := { data_ := [], borrowed_ := some p }, buf := s.setBuf p s.src.data_ } p rfl rfl
  have hs2 := hr hread
  subst hs2
  refine ⟨⟨_, _, _, Borrower_new_ndebug p s, rfl, ?_, hbuf, e,
    Borrower_delete_owner true p _ rfl rfl, rfl, hbuf, ?_⟩, Borrower_new_assert p s⟩
  · simp [constRef, assert, hbuf]
  · simp [constRef, hbuf]

theorem borrow_transparent_witness :
    (∀ op ∈ [RegOp.constRef, RegOp.constRef], op.isRead = true) ∧
    ((∃ s1 s2 s3, Borrower.new true 7 ⟨⟨[1, 2], none⟩, fun _ => []⟩ = Except.ok s1 ∧
      isBorrowed s1 = true ∧ constRef true s1 = Except.ok [1, 2] ∧
      Borrower.constData 7 s1 = [1, 2] ∧
      runOps true [RegOp.constRef, RegOp.constRef] s1 = Except.ok s2 ∧
      Borrower.delete true 7 s2 = Except.ok s3 ∧
      isBorrowed s3 = false ∧ s3.src.data_ = [1, 2] ∧
      constRef true s3 = Except.ok [1, 2]) ∧
    Borrower.new false 7 ⟨⟨[1, 2], none⟩, fun _ => []⟩ =
      Except.error "Data can be borrowed only once") :=
  have hread : ∀ op ∈ [RegOp.constRef, RegOp.constRef], op.isRead = true := by
    intro op hop
    simp at hop
    subst hop
    rfl
  ⟨hread,
    borrow_transparent ⟨⟨[1, 2], none⟩, fun _ => []⟩ 7 [RegOp.constRef, RegOp.constRef] hread⟩

theorem runStep_invariant (ndebug : Bool) (st : Step) (s : Store)
    (h : s.src.borrowed_ = none ∨ s.src.data_ = []) :
    (∃ t, runStep ndebug st s = Except.ok t ∧ (t.src.borrowed_ = none ∨ t.src.data_ = [])) ∨
      (ndebug = false ∧
        runStep ndebug st s = Except.error "Data can be borrowed only once") := by
  cases st with
  | construct p =>
    cases ndebug with
    | true => exact Or.inl ⟨_, Borrower_new_ndebug p s, Or.inr rfl⟩
    | false => exact Or.inr ⟨rfl, Borrower_new_assert p s⟩
  | destroy p =>
    left
    by_cases hp : s.src.borrowed_ = some p
    · have hd : s.src.data_ = [] := by
        rcases h with h1 | h1
        · rw [h1] at hp
          exact absurd hp (by simp)
        · exact h1
      exact ⟨_, Borrower_delete_owner ndebug p s hp hd, Or.inl rfl⟩
    · exact ⟨s, Borrower_delete_other ndebug p s hp, h⟩
  | op o =>
    left
    cases hb : s.src.borrowed_ with
    | none =>
      cases o with
      | constRef => exact ⟨s, by simp [runStep, runOp, constRef, hb], Or.inl hb⟩
      | mutableRef f => exact ⟨_, mutableEdit_idle ndebug f s hb, Or.inl rfl⟩
      | detach => exact ⟨s, by simp [runStep, runOp, detach, hb], Or.inl hb⟩
    | some q =>
      have hd : s.src.data_ = [] := by
        rcases h with h1 | h1
        · rw [h1] at hb
          exact absurd hb (by simp)
        · exact h1
      cases o with
      | constRef =>
        exact ⟨s, by cases ndebug <;> simp [runStep, runOp, constRef, assert, hb, hd], Or.inr hd⟩
      | mutableRef f => exact ⟨_, mutableEdit_borrowed ndebug f s q hb hd, Or.inl rfl⟩
      | detach =>
        exact ⟨{ s with src := { data_ := s.buf q, borrowed_ := none } },
          by cases ndebug <;> simp [runStep, runOp, detach, assert, hb, hd], Or.inl rfl⟩

theorem runSteps_invariant (ndebug : Bool) (steps : List Step) (s : Store)
    (h : s.src.borrowed_ = none ∨ s.src.data_ = []) :
    (∃ t, runSteps ndebug steps s = Except.ok t ∧
        (t.src.borrowed_ = none ∨ t.src.data_ = [])) ∨
      (ndebug = false ∧
        runSteps ndebug steps s = Except.error "Data can be borrowed only once") := by
  induction steps generalizing s with
  | nil => exact Or.inl ⟨s, rfl, h⟩
  | cons st steps ih =>
    rcases runStep_invariant ndebug st s h with ⟨t, ht, hinv⟩ | ⟨hnd, herr⟩
    · rw [runSteps, ht]
      exact ih t hinv
    · right
      rw [runSteps, herr]
      exact ⟨hnd, rfl⟩

theorem runSteps_assert_idle (steps : List Step) (s t : Store)
    (h : s.src.borrowed_ = none) (hrun : runSteps false steps s = Except.ok t) :
    t.src.borrowed_ = none := by
  induction steps generalizing s with
  | nil =>
    rw [runSteps] at hrun
    cases hrun
    exact h
  | cons st steps ih =>
    rw [runSteps] at hrun
    cases st with
    | construct p =>
      rw [runStep, Borrower_new_assert] at hrun
      cases hrun
    | destroy p =>
      rw [runStep, Borrower_delete_other false p s (by simp [h])] at hrun
      exact ih s h hrun
    | op o =>
      cases o with
      | constRef =>
        have h1 : runStep false (Step.op RegOp.constRef) s = Except.ok s := by
          simp [runStep, runOp, constRef, h]
        rw [h1] at hrun
        exact ih s h hrun
      | mutableRef f =>
        rw [runStep, runOp, mutableEdit_idle false f s h] at hrun
        exact ih _ rfl hrun
      | detach =>
        have h1 : runStep false (Step.op RegOp.detach) s = Except.ok s := by
          simp [runStep, runOp, detach, h]
        rw [h1] at hrun
        exact ih s h hrun

/-- C16: run any sequence of Borrower constructions, Borrower destructions, `detach()`,
`constRef()` and `mutableRef()` followed by an arbitrary edit, starting from a freshly
constructed registry.  In a build with `NDEBUG` the run always goes through, and in the
state it reaches the registry is not borrowed or its `data_` is empty.  In a build with
active assertions the run either goes through, to a state in which the registry is not
borrowed, or it stopped at the assertion of the Borrower constructor ("Data can be
borrowed only once").  So in neither build does one of the assertions
`assert(data_.empty())` or `assert(src_->data_.empty())` ever fail. -/
theorem borrowed_implies_empty_primary (steps : List Step) (buf0 : BufPtr → ConnectionsVector) :
    (∃ s, runSteps true steps ⟨BorrowableData.new, buf0⟩ = Except.ok s ∧
        (s.src.borrowed_ = none ∨ s.src.data_ = [])) ∧
    ((∃ s, runSteps false steps ⟨BorrowableData.new, buf0⟩ = Except.ok s ∧
        s.src.borrowed_ = none) ∨
      runSteps false steps ⟨BorrowableData.new, buf0⟩ =
        Except.error "Data can be borrowed only once") := by
  constructor
  · rcases runSteps_invariant true steps ⟨BorrowableData.new, buf0⟩ (Or.inl rfl) with h | ⟨h, _⟩
    · exact h
    · cases h
  · rcases runSteps_invariant false steps ⟨BorrowableData.new, buf0⟩ (Or.inl rfl) with
      ⟨t, ht, _⟩ | ⟨_, h⟩
    · exact Or.inl ⟨t, ht, runSteps_assert_idle steps _ t rfl ht⟩
    · exact Or.inr h

/-- C14: in every state a freshly constructed registry can reach, in either build: if the
registry is borrowed, with the snapshot `xs` in the buffer `borrowed_` points to, then
`constRef()` reads `xs`, and `mutableRef()` returns a `data_` equal to `xs`, leaves
`isBorrowed()` false and leaves the Borrower's own buffer equal to `xs`; if the registry
is idle, `mutableRef()` changes nothing and returns `data_` as it is.  Borrowed states are
reached only in a build with `NDEBUG`: with active assertions every reachable state is
idle, because the Borrower constructor aborts. -/
theorem mutableRef_reconciles (ndebug : Bool) (steps : List Step)
    (buf0 : BufPtr → ConnectionsVector) (s : Store)
    (hrun : runSteps ndebug steps ⟨BorrowableData.new, buf0⟩ = Except.ok s) :
    (∀ p, s.src.borrowed_ = some p →
        constRef ndebug s = Except.ok (s.buf p) ∧
        ∃ t, mutableRef ndebug s = Except.ok t ∧ t.src.data_ = s.buf p ∧
          isBorrowed t = false ∧ Borrower.constData p t = s.buf p) ∧
      (s.src.borrowed_ = none → mutableRef ndebug s = Except.ok s ∧ isBorrowed s = false) ∧
      (ndebug = false → s.src.borrowed_ = none) := by
  have hinv : s.src.borrowed_ = none ∨ s.src.data_ = [] := by
    rcases runSteps_invariant ndebug steps ⟨BorrowableData.new, buf0⟩ (Or.inl rfl) with
      ⟨t, ht, h⟩ | ⟨_, herr⟩
    · rw [hrun] at ht
      cases ht
      exact h
    · rw [hrun] at herr
      cases herr
  refine ⟨?_, ?_, ?_⟩
  · intro p hp
    have hd : s.src.data_ = [] := by
      rcases hinv with h1 | h1
      · rw [h1] at hp
        exact absurd hp (by simp)
      · exact h1
    refine ⟨by cases ndebug <;> simp [constRef, assert, hp, hd],
      { s with src := { data_ := s.buf p, borrowed_ := none } },
      by cases ndebug <;> simp [mutableRef, detach, assert, hp, hd], rfl, rfl, rfl⟩
  · intro hb
    exact ⟨by simp [mutableRef, detach, hb], by simp [isBorrowed, hb]⟩
  · intro hnd
    subst hnd
    exact runSteps_assert_idle steps _ s rfl hrun

theorem mutableRef_reconciles_witness :
    (runSteps true [Step.op (RegOp.mutableRef (push_back 3)), Step.construct 7]
        ⟨BorrowableData.new, fun _ => []⟩ =
      Except.ok ⟨⟨[], some 7⟩, fun q => if q = 7 then [3] else []⟩ ∧
      (⟨⟨[], some 7⟩, fun q => if q = 7 then [3] else []⟩ : Store).src.borrowed_ = some 7) ∧
    (constRef true ⟨⟨[], some 7⟩, fun q => if q = 7 then [3] else []⟩ =
        Except.ok ((⟨⟨[], some 7⟩, fun q => if q = 7 then [3] else []⟩ : Store).buf 7) ∧
      ∃ t, mutableRef true ⟨⟨[], some 7⟩, fun q => if q = 7 then [3] else []⟩ = Except.ok t ∧
        t.src.data_ = (⟨⟨[], some 7⟩, fun q => if q = 7 then [3] else []⟩ : Store).buf 7 ∧
        isBorrowed t = false ∧
        Borrower.constData 7 t =
          (⟨⟨[], some 7⟩, fun q => if q = 7 then [3] else []⟩ : Store).buf 7) :=
  ⟨⟨rfl, rfl⟩,
    (mutableRef_reconciles true [Step.op (RegOp.mutableRef (push_back 3)), Step.construct 7]
      (fun _ => []) ⟨⟨[], some 7⟩, fun q => if q = 7 then [3] else []⟩ rfl).1 7 rfl⟩

/-! ## Theorems: disconnecting twice, queries, and lists that never grow -/

theorem runAction_broken (w : World) (a : ListAction) :
    (runAction w a).broken = w.broken := by
  cases a <;> rfl

theorem foldl_runAction_broken (acts : List ListAction) (w : World) :
    (acts.foldl runAction w).broken = w.broken := by
  induction acts generalizing w with
  | nil => rfl
  | cons a acts ih => rw [List.foldl_cons, ih, runAction_broken]

theorem notify_broken (B : Behaviour) (conn : ConnPtr) (w : World) (l : Listener) :
    (notify B conn w l).broken = w.broken := by
  cases l with
  | connectionBroken => rfl
  | other i => exact foldl_runAction_broken _ w

theorem foldl_notify_broken (B : Behaviour) (conn : ConnPtr) (ls : List Listener) (w : World) :
    (ls.foldl (notify B conn) w).broken = w.broken := by
  induction ls generalizing w with
  | nil => rfl
  | cons l ls ih => rw [List.foldl_cons, ih, notify_broken]

theorem disconnect_marks_broken (B : Behaviour) (conn : ConnPtr) (w : World) :
    conn ∈ (AbstractConnection.disconnect B conn w).broken := by
  unfold AbstractConnection.disconnect
  by_cases h : conn ∈ w.broken
  · simp only [h, if_true]
  · simp only [h, if_false]
    rw [foldl_notify_broken]
    exact List.mem_cons_self _ _

theorem disconnect_of_broken (B : Behaviour) (conn : ConnPtr) (w : World) (h : conn ∈ w.broken) :
    AbstractConnection.disconnect B conn w =
      { w with disconnectCalls := w.disconnectCalls ++ [conn] } := by
  unfold AbstractConnection.disconnect
  simp only [h, if_true]

/-- C15: for every connection, every set of listeners registered on it and every
behaviour of those listeners, a second `disconnect()` right after the first delivers no
notification and changes nothing: the list, the listeners, the set of disconnected
connections and the record of `connectionBroken` notifications are as the first call left
them; only the record of `disconnect()` calls shows the second call. -/
theorem disconnect_twice_is_once (B : Behaviour) (conn : ConnPtr) (w : World) :
    AbstractConnection.disconnect B conn (AbstractConnection.disconnect B conn w) =
      { AbstractConnection.disconnect B conn w with
        disconnectCalls := (AbstractConnection.disconnect B conn w).disconnectCalls ++ [conn] } ∧
    (AbstractConnection.disconnect B conn (AbstractConnection.disconnect B conn w)).connections_ =
      (AbstractConnection.disconnect B conn w).connections_ ∧
    (AbstractConnection.disconnect B conn (AbstractConnection.disconnect B conn w)).brokenLog =
      (AbstractConnection.disconnect B conn w).brokenLog ∧
    (AbstractConnection.disconnect B conn (AbstractConnection.disconnect B conn w)).listeners_ =
      (AbstractConnection.disconnect B conn w).listeners_ := by
  have h := disconnect_of_broken B conn _ (disconnect_marks_broken B conn w)
  refine ⟨h, ?_, ?_, ?_⟩ <;> rw [h]

theorem CHECK_FOR_CONNECTIONS_eq_any (Test : ConnPtr → Bool) (v : ConnectionsVector) :
    CHECK_FOR_CONNECTIONS Test v = v.any Test := by
  induction v with
  | nil => rfl
  | cons x rest ih =>
    by_cases hx : Test x = true
    · simp [CHECK_FOR_CONNECTIONS, hx]
    · have hx2 : Test x = false := by simpa using hx
      simp [CHECK_FOR_CONNECTIONS, hx2, ih]

theorem hasConnectionsWith_eq (k : Criterion) (H : Heap) (id : Nat) (w : World) :
    ConnectionList.hasConnectionsWith k H id w =
      CHECK_FOR_CONNECTIONS (k.test H id) w.connections_ := by
  cases k <;> rfl

theorem DISCONNECT_retVal (B : Behaviour) (Test : ConnPtr → Bool) (w : World) :
    (DISCONNECT_CONNECTIONS B Test w).1 = w.connections_.any Test := by
  obtain ⟨_, h2, _⟩ := DISCONNECT_loop_spec B Test w.connections_ [] false
    { w with connections_ := [] }
  simpa [DISCONNECT_CONNECTIONS] using h2

/-- C17: for each criterion (sender, receiver, event, delegate) and every identity `id`,
the value `disconnectFromX(id)` returns equals what `hasConnectionsWithX(id)` returned
just before the call, and `hasConnectionsWithX(id)` is false just after the call, whatever
the listeners do (so in particular when they add no connections). -/
theorem query_agrees_with_disconnect (k : Criterion) (H : Heap) (B : Behaviour) (id : Nat)
    (w : World) :
    (ConnectionList.disconnectFrom k H B id w).1 = ConnectionList.hasConnectionsWith k H id w ∧
      ConnectionList.hasConnectionsWith k H id (ConnectionList.disconnectFrom k H B id w).2 =
        false := by
  constructor
  · rw [disconnectFrom_eq, DISCONNECT_retVal, hasConnectionsWith_eq, CHECK_FOR_CONNECTIONS_eq_any]
  · rw [hasConnectionsWith_eq, CHECK_FOR_CONNECTIONS_eq_any, disconnectFrom_eq,
      DISCONNECT_connections, List.any_eq_false]
    intro x hx
    rw [List.mem_filter] at hx
    simpa using hx.2

/-- C18: for every list with contents `xs`, every identity `id` and every behaviour of the
listeners, also listeners that call `addConnection` on this list during the call, the
list after a disconnect-by-criteria method returns is a sublist of `xs`, holds exactly
the entries of `xs` that do not match `id`, and holds no connection that was not in `xs`:
whatever was added while the call ran is not in the list afterwards. -/
theorem disconnectFrom_never_grows (k : Criterion) (H : Heap) (B : Behaviour) (id : Nat)
    (w : World) :
    ((ConnectionList.disconnectFrom k H B id w).2.connections_).Sublist w.connections_ ∧
      (ConnectionList.disconnectFrom k H B id w).2.connections_.length ≤ w.connections_.length ∧
      (∀ x, x ∈ (ConnectionList.disconnectFrom k H B id w).2.connections_ ↔
        (x ∈ w.connections_ ∧ k.test H id x = false)) ∧
      (∀ a, a ∉ w.connections_ → a ∉ (ConnectionList.disconnectFrom k H B id w).2.connections_) := by
  have h : (ConnectionList.disconnectFrom k H B id w).2.connections_ =
      w.connections_.filter (fun c => !k.test H id c) := by
    rw [disconnectFrom_eq, DISCONNECT_connections]
  rw [h]
  refine ⟨List.filter_sublist _, List.length_filter_le _ _, ?_, ?_⟩
  · intro x
    simp [List.mem_filter]
  · intro a ha hmem
    exact ha (List.mem_of_mem_filter hmem)

theorem disconnectFrom_never_grows_witness :
    ((9 : ConnPtr) ∉ (⟨[1, 2], fun c => if c = 1 then [Listener.connectionBroken, Listener.other 0]
        else [Listener.connectionBroken], [], [], []⟩ : World).connections_) ∧
    (9 : ConnPtr) ∉ (ConnectionList.disconnectFrom Criterion.Reciver (fun c => ⟨0, 0, c, 0⟩)
      (fun _ _ _ => [ListAction.addConnection 9]) 1
      ⟨[1, 2], fun c => if c = 1 then [Listener.connectionBroken, Listener.other 0]
        else [Listener.connectionBroken], [], [], []⟩).2.connections_ :=
  ⟨by decide,
    (disconnectFrom_never_grows Criterion.Reciver (fun c => ⟨0, 0, c, 0⟩)
      (fun _ _ _ => [ListAction.addConnection 9]) 1
      ⟨[1, 2], fun c => if c = 1 then [Listener.connectionBroken, Listener.other 0]
        else [Listener.connectionBroken], [], [], []⟩).2.2.2 9 (by decide)⟩

end CppEvents
